import Mathlib

/-!
Verification of the speech-generation pipeline of the `tts-player` repository
(`src-tauri/src/tts.rs` and `src-tauri/src/database.rs`) against its
natural-language specification.

Modelling conventions:
* Rust `&str` / `String` values are modelled as `List Char`; `str::len()`
  counts UTF-8 bytes, modelled by `utf8Len`.  All split points used by the
  code fall on character boundaries, so character positions and byte
  positions identify the same split points.
* Fallible byte slicing `&text[..n]` is modelled by `byteTake`, returning
  `none` exactly when Rust would panic (offset inside a multi-byte
  character).
* Rust `Result<T, E>` is modelled by the `Result` inductive below.
* Network calls and ledger writes are effects; they are modelled by
  oracles (`Nat → Result …` per attempt or per chunk) and the functions
  return, besides their value, the list of observable events (`Ev`) they
  emitted, in order.
-/

namespace TTSPlayer

/-- Rust `Result<α, ε>`. -/
inductive Result (α ε : Type) : Type
  | ok : α → Result α ε
  | err : ε → Result α ε
deriving DecidableEq

/-- The error taxonomy `TTSError` (tts.rs lines 10-17). -/
inductive TTSError : Type
  | authentication : String → TTSError
  | rateLimit : Option Nat → TTSError
  | validationError : String → TTSError
  | networkError : String → TTSError
  | unknownError : String → TTSError
deriving DecidableEq

/-- Audio byte buffer (`Vec<u8>`); byte values are irrelevant to the claims. -/
abbrev Audio := List Nat

/-- UTF-8 byte length of a character sequence, as computed by `str::len()`. -/
def utf8Len (s : List Char) : Nat := (s.map Char.utf8Size).sum

/-- Byte-indexed prefix `&text[..n]` of a UTF-8 string: `some` of the characters
spanning exactly `n` bytes, `none` when byte offset `n` is not a character
boundary or lies past the end (Rust panics in both cases). -/
def byteTake (n : Nat) : List Char → Option (List Char)
  | [] => if n = 0 then some [] else none
  | c :: cs =>
    if n = 0 then some []
    else if c.utf8Size ≤ n then (byteTake (n - c.utf8Size) cs).map (fun t => c :: t)
    else none

/-! ## Chunker: `split_text_semantically` (tts.rs lines 559-622) -/

/-- The sentence-ending delimiters of tts.rs line 564, in source order. -/
def sentence_endings : List (List Char) :=
  [['.', ' '], ['!', ' '], ['?', ' '], ['.', '\n'], ['!', '\n'], ['?', '\n']]

/-- Whether `pat` is a leading segment of `s`. -/
def leads : List Char → List Char → Bool
  | [], _ => true
  | _ :: _, [] => false
  | p :: ps, c :: cs => p = c && leads ps cs

/-- Position (in characters) of the first occurrence of `pat` in `s`;
`str::find` returns the byte offset of the same occurrence. -/
def findSub (pat : List Char) : List Char → Option Nat
  | [] => if leads pat [] then some 0 else none
  | c :: cs => if leads pat (c :: cs) then some 0 else (findSub pat cs).map (· + 1)

/-- One step of the `sentence_end` scan (tts.rs lines 570-577): the end
position of `ending`'s first occurrence (`pos + ending.len()`) replaces the
best-so-far only when strictly smaller. -/
def endScanStep (remaining : List Char) (acc : Option Nat) (ending : List Char) : Option Nat :=
  match findSub ending remaining with
  | none => acc
  | some pos =>
    let endPos := pos + ending.length
    match acc with
    | none => some endPos
    | some b => if endPos < b then some endPos else acc

/-- The `sentence_end` scan of tts.rs lines 568-577 over all endings: the
smallest end position of any ending's first occurrence (the earlier ending in
the array wins ties). -/
def nextSentenceEnd (remaining : List Char) : Option Nat :=
  sentence_endings.foldl (endScanStep remaining) none

/-- Helper of `split_whitespace`: accumulates the current word reversed. -/
def splitWsAux : List Char → List Char → List (List Char)
  | [], cur => if cur.isEmpty then [] else [cur.reverse]
  | c :: cs, cur =>
    if c.isWhitespace then
      if cur.isEmpty then splitWsAux cs [] else cur.reverse :: splitWsAux cs []
    else splitWsAux cs (c :: cur)

/-- `str::split_whitespace` (tts.rs line 596): the maximal runs of
non-whitespace characters, in order.  (`Char.isWhitespace` covers the ASCII
whitespace this code's delimiters use.) -/
def split_whitespace (s : List Char) : List (List Char) := splitWsAux s []

/-- One step of the word-packing fallback (tts.rs lines 597-608): possibly
flush the chunk under construction, then append the word, space-separated. -/
def packStep (maxSize : Nat) (st : List (List Char) × List Char) (w : List Char) :
    List (List Char) × List Char :=
  let fl :=
    if utf8Len st.2 + utf8Len w + 1 > maxSize then
      if st.2.isEmpty then st else (st.1 ++ [st.2], ([] : List Char))
    else st
  (fl.1, if fl.2.isEmpty then w else fl.2 ++ ' ' :: w)

/-- The word loop of tts.rs lines 596-608 over the words of an over-long
sentence. -/
def packWords (maxSize : Nat) (ws : List (List Char)) (st : List (List Char) × List Char) :
    List (List Char) × List Char :=
  ws.foldl (packStep maxSize) st

/-- How one candidate sentence is consumed (tts.rs lines 586-611): flush the
chunk under construction when appending the sentence would overflow, then
either append the sentence or, when the sentence alone exceeds the limit,
fall back to word packing.  Returns `(current', chunks')`. -/
def consumeSentence (maxSize : Nat) (sentence current : List Char)
    (chunks : List (List Char)) : List Char × List (List Char) :=
  let st1 :=
    if ¬current.isEmpty ∧ utf8Len current + utf8Len sentence > maxSize then
      (chunks ++ [current], ([] : List Char))
    else (chunks, current)
  if utf8Len sentence > maxSize then
    let p := packWords maxSize (split_whitespace sentence) st1
    (p.2, p.1)
  else (st1.2 ++ sentence, st1.1)

/-- The main loop of `split_text_semantically` (tts.rs lines 567-619), with
fuel for termination; every iteration consumes at least one character, so fuel
`remaining.length` suffices (the fuel-exhausted arm is unreachable from
`split_text_semantically`). -/
def splitGo (maxSize : Nat) : Nat → List Char → List Char → List (List Char) → List (List Char)
  | _, [], current, chunks => if current.isEmpty then chunks else chunks ++ [current]
  | 0, _ :: _, _, chunks => chunks
  | fuel + 1, c :: cs, current, chunks =>
    let remaining := c :: cs
    let stop := (nextSentenceEnd remaining).getD remaining.length
    let next := consumeSentence maxSize (remaining.take stop) current chunks
    splitGo maxSize fuel (remaining.drop stop) next.1 next.2

/-- `split_text_semantically` (tts.rs lines 559-622). -/
def split_text_semantically (text : List Char) (maxSize : Nat) : List (List Char) :=
  splitGo maxSize text.length text [] []

/-- The candidate sentences the main loop of `split_text_semantically` scans,
in order: the same decomposition of the input the loop performs, without the
chunk packing. -/
def sentencesGo : Nat → List Char → List (List Char)
  | _, [] => []
  | 0, _ :: _ => []
  | fuel + 1, c :: cs =>
    let remaining := c :: cs
    let stop := (nextSentenceEnd remaining).getD remaining.length
    remaining.take stop :: sentencesGo fuel (remaining.drop stop)

/-- The sentence decomposition of a whole input text. -/
def sentencesOf (text : List Char) : List (List Char) := sentencesGo text.length text

/-! ## Request-input selection of `generate_speech` and
`generate_speech_with_model` (tts.rs lines 108-138 and 330-358) -/

/-- What a generation entry point does with the input text. -/
inductive RequestTarget : Type
  | single : List Char → RequestTarget
  | concat : RequestTarget
deriving DecidableEq

/-- Input selection of `generate_speech` (tts.rs lines 108-138).  For text
over 4000 bytes with ffmpeg unavailable, the code computes
`truncated = &text[..4000]` (a possible panic, hence `Option`) and logs it,
but the request body built at line 135 uses `text` itself, so the request
target carries the full text. -/
def generate_speech_request (ffmpegAvailable : Bool) (text : List Char) :
    Option RequestTarget :=
  if utf8Len text > 4000 then
    if ffmpegAvailable then some .concat
    else (byteTake 4000 text).map (fun _truncated => .single text)
  else some (.single text)

/-- Input selection of `generate_speech_with_model` (tts.rs lines 330-358):
here the ffmpeg-unavailable fallback does send the truncated prefix to
`generate_speech_with_model_single` (line 354). -/
def generate_speech_with_model_request (ffmpegAvailable : Bool) (text : List Char) :
    Option RequestTarget :=
  if utf8Len text ≤ 4000 then some (.single text)
  else if ffmpegAvailable then some .concat
  else (byteTake 4000 text).map .single

/-- The stored `text` field built by `track_usage` (tts.rs lines 458-463):
texts longer than 100 bytes are truncated to the first 97 bytes with `"..."`
appended; `none` models the panic of `&text[..97]` when byte 97 is not a
character boundary. -/
def track_usage_stored_text (text : List Char) : Option (List Char) :=
  if utf8Len text > 100 then (byteTake 97 text).map (fun t => t ++ "...".data)
  else some text

/-! ## Retry loop: `generate_speech_with_retry` (tts.rs lines 403-422) -/

/-- `MAX_RETRIES` (tts.rs line 404). -/
def MAX_RETRIES : Nat := 3

/-- Which errors the retry loop retries: everything except `RateLimit` and
`Authentication` (tts.rs lines 410-411). -/
def retryable : TTSError → Bool
  | .rateLimit _ => false
  | .authentication _ => false
  | _ => true

/-- The loop body of `generate_speech_with_retry` (tts.rs lines 407-419).
`synth attempt` is the outcome of the underlying `generate_speech` call on
that attempt.  Returns the final result and the number of attempts made.
The fuel-exhausted arm models the `unreachable!()` after the loop. -/
def retryGo (synth : Nat → Result Audio TTSError) : Nat → Nat → Result Audio TTSError × Nat
  | attempt, 0 => (.err (.unknownError "unreachable"), attempt)
  | attempt, fuel + 1 =>
    match synth attempt with
    | .ok a => (.ok a, attempt + 1)
    | .err (.rateLimit _) => (.err (.rateLimit none), attempt + 1)
    | .err (.authentication _) => (.err (.authentication "API key invalid"), attempt + 1)
    | .err e =>
      if attempt = MAX_RETRIES - 1 then (.err e, attempt + 1)
      else retryGo synth (attempt + 1) fuel

/-- `generate_speech_with_retry` (tts.rs lines 403-422), abstracted over the
per-attempt outcome of the underlying call. -/
def generate_speech_with_retry (synth : Nat → Result Audio TTSError) :
    Result Audio TTSError × Nat :=
  retryGo synth 0 MAX_RETRIES

/-! ## Ledger recording and the chunked generation runs
(tts.rs lines 174-328, 453-475, 477-524) -/

/-- Observable events of a generation run: a provider request for chunk `i`,
a usage-ledger record written for chunk `i` (with the recorded success flag),
or the single whole-text ledger record of the ffmpeg-concat path. -/
inductive Ev : Type
  | request : Nat → Ev
  | record : Nat → Bool → Ev
  | recordAll : Ev
deriving DecidableEq

/-- `track_usage` (tts.rs lines 453-475) with a database configured:
a failing ledger write surfaces as `UnknownError("Database error: …")`
(line 472). `dbWrite` is the outcome of `Database::record_usage`. -/
def track_usage (dbWrite : Result Unit String) : Result Unit TTSError :=
  match dbWrite with
  | .ok _ => .ok ()
  | .err e => .err (.unknownError ("Database error: " ++ e))

/-- `generate_speech_tracked_single` (tts.rs lines 509-524) for chunk `i`:
synthesize, then record the attempt; the `?` on both `track_usage` calls
propagates a failing ledger write.  Returns the result and the emitted
events (`record` only when the ledger write succeeded). -/
def generate_speech_tracked_single (i : Nat) (synth : Result Audio TTSError)
    (dbWrite : Result Unit String) : Result Audio TTSError × List Ev :=
  match synth with
  | .ok a =>
    match track_usage dbWrite with
    | .ok _ => (.ok a, [.request i, .record i true])
    | .err te => (.err te, [.request i])
  | .err e =>
    match track_usage dbWrite with
    | .ok _ => (.err e, [.request i, .record i false])
    | .err te => (.err te, [.request i])

/-- The multi-chunk loop of `generate_speech_chunked` (tts.rs lines 493-503):
each chunk goes through `generate_speech_tracked_single`; the first failure
aborts the loop. `synth i` / `db i` are the synthesis and ledger-write
outcomes for chunk `i`. -/
def chunkedGo (synth : Nat → Result Audio TTSError) (db : Nat → Result Unit String) :
    List (List Char) → Nat → Result (List Audio) TTSError × List Ev
  | [], _ => (.ok [], [])
  | _ :: cs, i =>
    match generate_speech_tracked_single i (synth i) (db i) with
    | (.err e, tr) => (.err e, tr)
    | (.ok a, tr) =>
      match chunkedGo synth db cs (i + 1) with
      | (.err e, tr2) => (.err e, tr ++ tr2)
      | (.ok as, tr2) => (.ok (a :: as), tr ++ tr2)

/-- `MAX_CHUNK_SIZE` of `generate_speech_chunked` and
`generate_speech_with_ffmpeg_concat` (tts.rs lines 175 and 478). -/
def MAX_CHUNK_SIZE : Nat := 3800

/-- `generate_speech_chunked` (tts.rs lines 477-507): single tracked request
for short text, otherwise the tracked loop over the semantic chunks. -/
def generate_speech_chunked (synth : Nat → Result Audio TTSError)
    (db : Nat → Result Unit String) (text : List Char) :
    Result (List Audio) TTSError × List Ev :=
  if utf8Len text ≤ MAX_CHUNK_SIZE then
    match generate_speech_tracked_single 0 (synth 0) (db 0) with
    | (.ok a, tr) => (.ok [a], tr)
    | (.err e, tr) => (.err e, tr)
  else chunkedGo synth db (split_text_semantically text MAX_CHUNK_SIZE) 0

/-- The per-chunk request loop of `generate_speech_with_ffmpeg_concat`
(tts.rs lines 187-249): one provider request per chunk, abort on the first
failure; no ledger write happens anywhere in this loop. -/
def ffmpegConcatGo (synth : Nat → Result Audio TTSError) :
    List (List Char) → Nat → Result (List Audio) TTSError × List Ev
  | [], _ => (.ok [], [])
  | _ :: cs, i =>
    match synth i with
    | .err e => (.err e, [.request i])
    | .ok a =>
      match ffmpegConcatGo synth cs (i + 1) with
      | (.err e, tr) => (.err e, .request i :: tr)
      | (.ok as, tr) => (.ok (a :: as), .request i :: tr)

/-- The body of `generate_speech_with_ffmpeg_concat` (tts.rs lines 174-328)
after the chunk list is computed (line 177): empty chunk list is a validation
error; a single generated segment is returned directly (lines 252-258,
without any ledger write); otherwise the external concatenation (`concat`,
modelling the ffmpeg invocation and file reads, error wrapped as
`NetworkError` as at line 311) runs and, on success only, one best-effort
whole-text ledger record is written (`let _ = self.track_usage(...)`,
line 325). -/
def ffmpeg_concat_run (synth : Nat → Result Audio TTSError)
    (concat : Result Audio String) (dbWrite : Result Unit String)
    (chunks : List (List Char)) : Result Audio TTSError × List Ev :=
  if chunks.isEmpty then (.err (.validationError "No valid text chunks found"), [])
  else
    match ffmpegConcatGo synth chunks 0 with
    | (.err e, tr) => (.err e, tr)
    | (.ok audios, tr) =>
      match audios with
      | [a] => (.ok a, tr)
      | _ =>
        match concat with
        | .err e => (.err (.networkError ("ffmpeg failed: " ++ e)), tr)
        | .ok buf =>
          (.ok buf, tr ++ match dbWrite with | .ok _ => [Ev.recordAll] | .err _ => [])

/-- `generate_speech_with_ffmpeg_concat` (tts.rs lines 174-328). -/
def generate_speech_with_ffmpeg_concat (synth : Nat → Result Audio TTSError)
    (concat : Result Audio String) (dbWrite : Result Unit String)
    (text : List Char) : Result Audio TTSError × List Ev :=
  ffmpeg_concat_run synth concat dbWrite (split_text_semantically text MAX_CHUNK_SIZE)

/-- The ledger events `generate_speech_tracked_single` emits for chunk `i`:
the request, then (when the ledger write succeeds) the record carrying the
synthesis success flag. -/
def chunkBlock (synth : Nat → Result Audio TTSError) (db : Nat → Result Unit String)
    (i : Nat) : List Ev :=
  Ev.request i ::
    match db i with
    | .ok _ => [Ev.record i (match synth i with | .ok _ => true | .err _ => false)]
    | .err _ => []

/-! ## Voice validation and ledger aggregation
(tts.rs lines 93-106, database.rs lines 169-242) -/

/-- `VALID_VOICE_IDS` (tts.rs lines 95-102): the OpenAI TTS voice ids. -/
def VALID_VOICE_IDS : List String := ["alloy", "echo", "fable", "onyx", "nova", "shimmer"]

/-- `str::trim`: drop leading and trailing whitespace. -/
def trimChars (s : List Char) : List Char :=
  ((s.dropWhile Char.isWhitespace).reverse.dropWhile Char.isWhitespace).reverse

/-- `is_valid_voice` (tts.rs lines 93-106): trimmed id non-empty and a member
of `VALID_VOICE_IDS`. -/
def is_valid_voice (voice_id : String) : Bool :=
  let v := trimChars voice_id.data
  !v.isEmpty && VALID_VOICE_IDS.any (fun x => x.data == v)

/-- The fields of a `UsageRecord` (database.rs lines 7-17) that the
aggregation claims depend on. -/
structure UsageRecord : Type where
  voice_id : String
  success : Bool
  character_count : Int
deriving DecidableEq

/-- `UsageStats` (database.rs lines 29-37), without the per-day rollup. -/
structure UsageStats : Type where
  total_requests : Nat
  total_characters : Int
  successful_requests : Nat
  failed_requests : Nat
  most_used_voice : String
deriving DecidableEq

/-- Number of records in the window using voice `v` (the per-voice
`COUNT(*)` of the `GROUP BY voice_id` query, database.rs lines 192-201). -/
def countVoice (records : List UsageRecord) (v : String) : Nat :=
  (records.filter (fun r => r.voice_id == v)).length

/-- Scan for the voice with the maximal count (the `ORDER BY usage_count DESC
LIMIT 1` of database.rs lines 192-201); a strictly later candidate replaces
the current best only with a strictly greater count. -/
def mostUsedVoiceAux (records : List UsageRecord) : List String → Option String → Option String
  | [], best => best
  | v :: vs, best =>
    mostUsedVoiceAux records vs
      (match best with
       | none => some v
       | some b => if countVoice records b < countVoice records v then some v else some b)

/-- The `most_used_voice` computation of `get_usage_stats` (database.rs lines
192-206): the voice with the greatest count among the records in the window,
defaulting to `"rachel"` when no record exists (the `unwrap_or_else` at line
206). -/
def most_used_voice (records : List UsageRecord) : String :=
  (mostUsedVoiceAux records (records.map (fun r => r.voice_id)) none).getD "rachel"

/-- `get_usage_stats` (database.rs lines 169-242) over the records inside the
trailing window: the `COUNT`/`SUM` aggregation of lines 171-189 plus the
most-used-voice query. -/
def get_usage_stats (records : List UsageRecord) : UsageStats where
  total_requests := records.length
  total_characters := (records.map (fun r => r.character_count)).sum
  successful_requests := (records.filter (fun r => r.success)).length
  failed_requests := (records.filter (fun r => !r.success)).length
  most_used_voice := most_used_voice records

/-! ## Helper lemmas -/

theorem utf8Len_cons (c : Char) (s : List Char) :
    utf8Len (c :: s) = c.utf8Size + utf8Len s := by
  simp [utf8Len]

theorem utf8Len_append (s t : List Char) :
    utf8Len (s ++ t) = utf8Len s + utf8Len t := by
  simp [utf8Len]

theorem utf8Len_replicate (n : Nat) (c : Char) :
    utf8Len (List.replicate n c) = n * c.utf8Size := by
  simp [utf8Len, List.map_replicate, List.sum_replicate, smul_eq_mul]

theorem byteTake_addLeft (c : Char) (h1 : c.utf8Size = 1) :
    ∀ (k n : Nat) (s : List Char),
      byteTake (k + n) (List.replicate k c ++ s) =
        (byteTake n s).map (fun t => List.replicate k c ++ t) := by
  intro k
  induction k with
  | zero =>
    intro n s
    simp only [List.replicate, Nat.zero_add, List.nil_append]
    cases byteTake n s <;> simp
  | succ k ih =>
    intro n s
    have hne : ¬(k + 1 + n = 0) := by omega
    have hle : c.utf8Size ≤ k + 1 + n := by rw [h1]; omega
    have harith : k + 1 + n - c.utf8Size = k + n := by rw [h1]; omega
    rw [List.replicate_succ, List.cons_append]
    rw [show byteTake (k + 1 + n) (c :: (List.replicate k c ++ s)) =
        if k + 1 + n = 0 then some [] else
        if c.utf8Size ≤ k + 1 + n then
          (byteTake (k + 1 + n - c.utf8Size) (List.replicate k c ++ s)).map
            (fun t => c :: t)
        else none from rfl]
    rw [if_neg hne, if_pos hle, harith, ih n s, Option.map_map]
    cases byteTake n s <;> simp [List.replicate_succ]

theorem endScanStep_pos (r : List Char) (acc : Option Nat) (ending : List Char)
    (hacc : ∀ x, acc = some x → 1 ≤ x) (he : ending ≠ []) :
    ∀ x, endScanStep r acc ending = some x → 1 ≤ x := by
  intro x hx
  unfold endScanStep at hx
  have hlen : 1 ≤ ending.length := List.length_pos.mpr he
  cases hf : findSub ending r with
  | none => rw [hf] at hx; exact hacc x hx
  | some pos =>
    rw [hf] at hx
    cases acc with
    | none =>
      simp only [Option.some.injEq] at hx
      omega
    | some b =>
      by_cases hb : pos + ending.length < b
      · simp only [hb, if_true, Option.some.injEq] at hx
        omega
      · simp only [hb, if_false] at hx
        exact hacc x hx

theorem foldl_endScan_pos (r : List Char) :
    ∀ (es : List (List Char)) (acc : Option Nat),
      (∀ x, acc = some x → 1 ≤ x) → (∀ p ∈ es, p ≠ []) →
      ∀ x, es.foldl (endScanStep r) acc = some x → 1 ≤ x := by
  intro es
  induction es with
  | nil => intro acc hacc _ x hx; exact hacc x hx
  | cons e es ih =>
    intro acc hacc hes x hx
    exact ih (endScanStep r acc e)
      (endScanStep_pos r acc e hacc (hes e (by simp)))
      (fun p hp => hes p (by simp [hp])) x hx

theorem nextSentenceEnd_pos (r : List Char) :
    ∀ x, nextSentenceEnd r = some x → 1 ≤ x := by
  intro x hx
  exact foldl_endScan_pos r sentence_endings none
    (fun y hy => Option.noConfusion hy) (by decide) x hx

theorem stop_pos (r : List Char) (hr : r ≠ []) :
    1 ≤ (nextSentenceEnd r).getD r.length := by
  cases h : nextSentenceEnd r with
  | none => simpa using List.length_pos.mpr hr
  | some x => simpa using nextSentenceEnd_pos r x h

/-! ## C3: the ffmpeg-unavailable fallback of `generate_speech` -/

/-- C3: when ffmpeg is unavailable and the text exceeds the per-request limit,
the claim says both entry points send only the 4000-byte truncated prefix.
`generate_speech_with_model` does, but `generate_speech` sends the full text:
at 4001 bytes of input its request target carries all 4001 characters, not the
4000-character prefix it computes and logs.  This contradicts the code's own
fallback comment and log message, so the code, not the claim, is wrong. -/
theorem c3_fallback_sends_full_text :
    generate_speech_request false (List.replicate 4001 'a') =
      some (RequestTarget.single (List.replicate 4001 'a')) ∧
    generate_speech_with_model_request false (List.replicate 4001 'a') =
      some (RequestTarget.single (List.replicate 4000 'a')) ∧
    (List.replicate 4001 'a' : List Char) ≠ List.replicate 4000 'a' := by
  have ha : ('a').utf8Size = 1 := by decide
  have hlen : utf8Len (List.replicate 4001 'a') = 4001 := by
    rw [utf8Len_replicate, ha, Nat.mul_one]
  have hsplit : (List.replicate 4001 'a' : List Char) =
      List.replicate 4000 'a' ++ List.replicate 1 'a' := by
    rw [← List.replicate_add]
  have htake : byteTake 4000 (List.replicate 4001 'a') = some (List.replicate 4000 'a') := by
    have h := byteTake_addLeft 'a' ha 4000 0 (List.replicate 1 'a')
    rw [Nat.add_zero] at h
    rw [hsplit, h]
    rw [show byteTake 0 (List.replicate 1 'a') = some [] from rfl]
    rw [Option.map_some', List.append_nil]
  have hne : (List.replicate 4001 'a' : List Char) ≠ List.replicate 4000 'a' := by
    intro h
    have hl := congrArg List.length h
    rw [List.length_replicate, List.length_replicate] at hl
    exact absurd hl (by norm_num)
  refine ⟨?_, ?_, hne⟩
  · unfold generate_speech_request
    rw [hlen, if_pos (by norm_num : 4001 > 4000),
      if_neg (by simp : ¬((false : Bool) = true)), htake, Option.map_some']
  · unfold generate_speech_with_model_request
    rw [hlen, if_neg (by norm_num : ¬(4001 ≤ 4000)),
      if_neg (by simp : ¬((false : Bool) = true)), htake, Option.map_some']

/-! ## C5, C6: the retry loop -/

theorem retryGo_succ (synth : Nat → Result Audio TTSError) (attempt fuel : Nat) :
    retryGo synth attempt (fuel + 1) =
      match synth attempt with
      | .ok a => (.ok a, attempt + 1)
      | .err (.rateLimit _) => (.err (.rateLimit none), attempt + 1)
      | .err (.authentication _) => (.err (.authentication "API key invalid"), attempt + 1)
      | .err e =>
        if attempt = MAX_RETRIES - 1 then (.err e, attempt + 1)
        else retryGo synth (attempt + 1) fuel := rfl

theorem retryGo_retryable_step (synth : Nat → Result Audio TTSError) (attempt fuel : Nat)
    (e : TTSError) (h : synth attempt = .err e) (hr : retryable e = true)
    (hlast : ¬attempt = MAX_RETRIES - 1) :
    retryGo synth attempt (fuel + 1) = retryGo synth (attempt + 1) fuel := by
  rw [retryGo_succ, h]
  cases e <;> simp_all [retryable]

theorem retryGo_last (synth : Nat → Result Audio TTSError) (e : TTSError)
    (h : synth 2 = .err e) (hr : retryable e = true) :
    retryGo synth 2 1 = (.err e, 3) := by
  show retryGo synth 2 (0 + 1) = (.err e, 3)
  rw [retryGo_succ, h]
  cases e <;> simp_all [retryable, MAX_RETRIES]

/-- C5: `generate_speech_with_retry` makes at most `MAX_RETRIES = 3` attempts:
two `NetworkError`s followed by a success return the success after exactly 3
attempts; an `Authentication` or `RateLimit` outcome on the first attempt ends
the loop after exactly 1 attempt with an error of the same kind; when every
attempt yields a retryable error, all 3 attempts are used. -/
theorem c5_retry_policy (synth : Nat → Result Audio TTSError) :
    (∀ e1 e2 a, synth 0 = .err (.networkError e1) → synth 1 = .err (.networkError e2) →
      synth 2 = .ok a → generate_speech_with_retry synth = (.ok a, 3)) ∧
    (∀ m, synth 0 = .err (.authentication m) →
      (generate_speech_with_retry synth).2 = 1 ∧
      ∃ m2, (generate_speech_with_retry synth).1 = .err (.authentication m2)) ∧
    (∀ r, synth 0 = .err (.rateLimit r) →
      (generate_speech_with_retry synth).2 = 1 ∧
      ∃ r2, (generate_speech_with_retry synth).1 = .err (.rateLimit r2)) ∧
    ((∀ i, i < MAX_RETRIES → ∃ e, synth i = .err e ∧ retryable e = true) →
      (generate_speech_with_retry synth).2 = MAX_RETRIES) := by
  refine ⟨?_, ?_, ?_, ?_⟩
  · intro e1 e2 a h0 h1 h2
    have s1 : generate_speech_with_retry synth = retryGo synth 1 2 := by
      show retryGo synth 0 (2 + 1) = retryGo synth 1 2
      exact retryGo_retryable_step synth 0 2 _ h0 rfl (by norm_num [MAX_RETRIES])
    have s2 : retryGo synth 1 2 = retryGo synth 2 1 := by
      show retryGo synth 1 (1 + 1) = retryGo synth 2 1
      exact retryGo_retryable_step synth 1 1 _ h1 rfl (by norm_num [MAX_RETRIES])
    have s3 : retryGo synth 2 1 = (.ok a, 3) := by
      show retryGo synth 2 (0 + 1) = (.ok a, 3)
      rw [retryGo_succ, h2]
    rw [s1, s2, s3]
  · intro m h0
    have s : generate_speech_with_retry synth =
        (.err (.authentication "API key invalid"), 1) := by
      show retryGo synth 0 (2 + 1) = _
      rw [retryGo_succ, h0]
    exact ⟨by rw [s], "API key invalid", by rw [s]⟩
  · intro r h0
    have s : generate_speech_with_retry synth = (.err (.rateLimit none), 1) := by
      show retryGo synth 0 (2 + 1) = _
      rw [retryGo_succ, h0]
    exact ⟨by rw [s], none, by rw [s]⟩
  · intro h
    obtain ⟨e0, h0, r0⟩ := h 0 (by norm_num [MAX_RETRIES])
    obtain ⟨e1, h1, r1⟩ := h 1 (by norm_num [MAX_RETRIES])
    obtain ⟨e2, h2, r2⟩ := h 2 (by norm_num [MAX_RETRIES])
    have s1 : generate_speech_with_retry synth = retryGo synth 1 2 := by
      show retryGo synth 0 (2 + 1) = retryGo synth 1 2
      exact retryGo_retryable_step synth 0 2 e0 h0 r0 (by norm_num [MAX_RETRIES])
    have s2 : retryGo synth 1 2 = retryGo synth 2 1 := by
      show retryGo synth 1 (1 + 1) = retryGo synth 2 1
      exact retryGo_retryable_step synth 1 1 e1 h1 r1 (by norm_num [MAX_RETRIES])
    rw [s1, s2, retryGo_last synth e2 h2 r2]
    simp [MAX_RETRIES]

/-- C5 witness: concrete oracles exercising the retry policy. -/
theorem c5_retry_policy_witness :
    generate_speech_with_retry
        (fun i => if i < 2 then .err (.networkError "reset") else .ok [1]) = (.ok [1], 3) ∧
    (generate_speech_with_retry (fun _ => .err (.unknownError "HTTP 500"))).2 = MAX_RETRIES :=
  ⟨(c5_retry_policy _).1 "reset" "reset" [1] rfl rfl rfl,
   (c5_retry_policy _).2.2.2 (fun _ _ => ⟨.unknownError "HTTP 500", rfl, rfl⟩)⟩

/-- C6 counterexample: the claim says `RateLimit` and `Authentication` are
returned unchanged, but the loop returns `RateLimit(None)` (dropping the
`retry_after` seconds) and `Authentication("API key invalid")` (discarding the
provider message). -/
theorem c6_counterexample :
    (generate_speech_with_retry (fun _ => .err (.rateLimit (some 30)))).1 ≠
      .err (.rateLimit (some 30)) ∧
    (generate_speech_with_retry (fun _ => .err (.authentication "token expired"))).1 ≠
      .err (.authentication "token expired") := by
  constructor <;> decide

/-- C6 amended: `RateLimit` is returned after one attempt with `retry_after`
replaced by `None`; `Authentication` is returned after one attempt with the
message replaced by `"API key invalid"`; when every attempt yields a retryable
error, the last attempt's error is returned verbatim. -/
theorem c6_error_rewriting (synth : Nat → Result Audio TTSError) :
    (∀ r, synth 0 = .err (.rateLimit r) →
      generate_speech_with_retry synth = (.err (.rateLimit none), 1)) ∧
    (∀ m, synth 0 = .err (.authentication m) →
      generate_speech_with_retry synth = (.err (.authentication "API key invalid"), 1)) ∧
    ((∀ i, i < MAX_RETRIES → ∃ e, synth i = .err e ∧ retryable e = true) →
      (generate_speech_with_retry synth).1 = synth (MAX_RETRIES - 1)) := by
  refine ⟨?_, ?_, ?_⟩
  · intro r h0
    show retryGo synth 0 (2 + 1) = _
    rw [retryGo_succ, h0]
  · intro m h0
    show retryGo synth 0 (2 + 1) = _
    rw [retryGo_succ, h0]
  · intro h
    obtain ⟨e0, h0, r0⟩ := h 0 (by norm_num [MAX_RETRIES])
    obtain ⟨e1, h1, r1⟩ := h 1 (by norm_num [MAX_RETRIES])
    obtain ⟨e2, h2, r2⟩ := h 2 (by norm_num [MAX_RETRIES])
    have s1 : generate_speech_with_retry synth = retryGo synth 1 2 := by
      show retryGo synth 0 (2 + 1) = retryGo synth 1 2
      exact retryGo_retryable_step synth 0 2 e0 h0 r0 (by norm_num [MAX_RETRIES])
    have s2 : retryGo synth 1 2 = retryGo synth 2 1 := by
      show retryGo synth 1 (1 + 1) = retryGo synth 2 1
      exact retryGo_retryable_step synth 1 1 e1 h1 r1 (by norm_num [MAX_RETRIES])
    rw [s1, s2, retryGo_last synth e2 h2 r2]
    show Result.err e2 = synth (MAX_RETRIES - 1)
    rw [show MAX_RETRIES - 1 = 2 from rfl, h2]

/-- C6 witness: rate-limit seconds are dropped; the last retryable error
comes back verbatim. -/
theorem c6_error_rewriting_witness :
    generate_speech_with_retry (fun _ => .err (.rateLimit (some 30))) =
      (.err (.rateLimit none), 1) ∧
    (generate_speech_with_retry (fun _ => .err (.networkError "reset"))).1 =
      .err (.networkError "reset") :=
  ⟨(c6_error_rewriting _).1 (some 30) rfl,
   (c6_error_rewriting _).2.2 (fun _ _ => ⟨.networkError "reset", rfl, rfl⟩)⟩

/-! ## C7: ledger write failure while recording a failed attempt -/

/-- C7 counterexample: the claim says a ledger write failure while recording
a failed synthesis is swallowed and the original error returned; instead the
`?` on `track_usage` propagates the storage error, masking the original
network error. -/
theorem c7_counterexample :
    (generate_speech_tracked_single 0 (.err (.networkError "timeout"))
        (.err "disk full")).1 ≠ .err (.networkError "timeout") ∧
    (generate_speech_tracked_single 0 (.err (.networkError "timeout"))
        (.err "disk full")).1 = .err (.unknownError "Database error: disk full") := by
  constructor
  · decide
  · rfl

/-- C7 amended: `generate_speech_tracked_single` returns the original
synthesis error only when the ledger write succeeds; a failing ledger write is
propagated as `UnknownError("Database error: …")`, replacing the original
error (and likewise turning a successful synthesis into an error). -/
theorem c7_ledger_failure_masks (i : Nat) (e : TTSError) (a : Audio) (msg : String) :
    (generate_speech_tracked_single i (.err e) (.ok ())).1 = .err e ∧
    (generate_speech_tracked_single i (.err e) (.err msg)).1 =
      .err (.unknownError ("Database error: " ++ msg)) ∧
    (generate_speech_tracked_single i (.ok a) (.err msg)).1 =
      .err (.unknownError ("Database error: " ++ msg)) ∧
    (generate_speech_tracked_single i (.ok a) (.ok ())).1 = .ok a :=
  ⟨rfl, rfl, rfl, rfl⟩

/-! ## C4: per-chunk ledger recording -/

theorem tracked_single_trace (i : Nat) (synth : Nat → Result Audio TTSError)
    (db : Nat → Result Unit String) :
    (generate_speech_tracked_single i (synth i) (db i)).2 = chunkBlock synth db i := by
  cases hs : synth i <;> cases hd : db i <;>
    simp [generate_speech_tracked_single, track_usage, chunkBlock, hs, hd]

theorem chunkedGo_blocks (synth : Nat → Result Audio TTSError)
    (db : Nat → Result Unit String) :
    ∀ (chunks : List (List Char)) (i : Nat), ∃ m ≤ chunks.length,
      (chunkedGo synth db chunks i).2 =
        ((List.range' i m).map (chunkBlock synth db)).flatten := by
  intro chunks
  induction chunks with
  | nil => intro i; exact ⟨0, by simp, by simp [chunkedGo]⟩
  | cons c cs ih =>
    intro i
    rcases h : generate_speech_tracked_single i (synth i) (db i) with ⟨r, tr⟩
    have htr : tr = chunkBlock synth db i := by
      have hh := tracked_single_trace i synth db
      rw [h] at hh
      exact hh
    cases r with
    | err e =>
      refine ⟨1, by simp, ?_⟩
      simp [chunkedGo, h, htr, List.range'_one]
    | ok a =>
      obtain ⟨m, hm, htr2⟩ := ih (i + 1)
      rcases h2 : chunkedGo synth db cs (i + 1) with ⟨r2, tr2⟩
      rw [h2] at htr2
      simp only at htr2
      refine ⟨m + 1, by simpa using Nat.succ_le_succ hm, ?_⟩
      cases r2 <;> simp [chunkedGo, h, h2, htr, htr2, List.range'_succ]

theorem ffmpegConcatGo_requests (synth : Nat → Result Audio TTSError) :
    ∀ (chunks : List (List Char)) (i : Nat), ∃ m ≤ chunks.length,
      (ffmpegConcatGo synth chunks i).2 = (List.range' i m).map Ev.request := by
  intro chunks
  induction chunks with
  | nil => intro i; exact ⟨0, by simp, by simp [ffmpegConcatGo]⟩
  | cons c cs ih =>
    intro i
    cases hs : synth i with
    | err e => exact ⟨1, by simp, by simp [ffmpegConcatGo, hs, List.range'_one]⟩
    | ok a =>
      obtain ⟨m, hm, htr⟩ := ih (i + 1)
      rcases h2 : ffmpegConcatGo synth cs (i + 1) with ⟨r2, tr2⟩
      rw [h2] at htr
      simp only at htr
      refine ⟨m + 1, by simpa using Nat.succ_le_succ hm, ?_⟩
      cases r2 <;> simp [ffmpegConcatGo, hs, h2, htr, List.range'_succ]

theorem ffmpeg_run_error_no_records (synth : Nat → Result Audio TTSError)
    (concat : Result Audio String) (dbWrite : Result Unit String)
    (chunks : List (List Char)) (e : TTSError)
    (h : (ffmpeg_concat_run synth concat dbWrite chunks).1 = .err e) :
    ∃ m, (ffmpeg_concat_run synth concat dbWrite chunks).2 =
      (List.range' 0 m).map Ev.request := by
  unfold ffmpeg_concat_run at h ⊢
  by_cases hc : chunks.isEmpty
  · exact ⟨0, by simp [hc]⟩
  · rcases hg : ffmpegConcatGo synth chunks 0 with ⟨r, tr⟩
    obtain ⟨m, hm, htr⟩ := ffmpegConcatGo_requests synth chunks 0
    rw [hg] at htr
    simp only at htr
    cases r with
    | err e2 => exact ⟨m, by simp [hc, hg, htr]⟩
    | ok audios =>
      rcases audios with _ | ⟨a, _ | ⟨b, rest⟩⟩
      · cases concat with
        | err ce => exact ⟨m, by simp [hc, hg, htr]⟩
        | ok buf => simp [hc, hg] at h
      · simp [hc, hg] at h
      · cases concat with
        | err ce => exact ⟨m, by simp [hc, hg, htr]⟩
        | ok buf => simp [hc, hg] at h

theorem chunked_trace_blocks (synth : Nat → Result Audio TTSError)
    (db : Nat → Result Unit String) (text : List Char) :
    ∃ m, (generate_speech_chunked synth db text).2 =
      ((List.range' 0 m).map (chunkBlock synth db)).flatten := by
  unfold generate_speech_chunked
  by_cases hlen : utf8Len text ≤ MAX_CHUNK_SIZE
  · refine ⟨1, ?_⟩
    rcases h : generate_speech_tracked_single 0 (synth 0) (db 0) with ⟨r, tr⟩
    have htr : tr = chunkBlock synth db 0 := by
      have hh := tracked_single_trace 0 synth db
      rw [h] at hh
      exact hh
    cases r <;> simp [hlen, h, htr, List.range'_one]
  · obtain ⟨m, _, htr⟩ :=
      chunkedGo_blocks synth db (split_text_semantically text MAX_CHUNK_SIZE) 0
    exact ⟨m, by simp [hlen, htr]⟩

/-- C4 counterexample: a multi-chunk run of the ffmpeg-concat path (tts.rs
lines 174-328) where chunk 0 succeeds and chunk 1 fails emits both provider
requests but no ledger record at all — chunk 0's attempt is not recorded
before chunk 1's request, contradicting the claim. -/
theorem c4_counterexample :
    (ffmpeg_concat_run (fun i => if i = 0 then .ok [7] else .err (.networkError "boom"))
        (.ok []) (.ok ()) [['a'], ['b']]).2 = [Ev.request 0, Ev.request 1] ∧
    (ffmpeg_concat_run (fun i => if i = 0 then .ok [7] else .err (.networkError "boom"))
        (.ok []) (.ok ()) [['a'], ['b']]).1 = .err (.networkError "boom") ∧
    Ev.record 0 true ∉ (ffmpeg_concat_run
        (fun i => if i = 0 then .ok [7] else .err (.networkError "boom"))
        (.ok []) (.ok ()) [['a'], ['b']]).2 ∧
    Ev.record 0 false ∉ (ffmpeg_concat_run
        (fun i => if i = 0 then .ok [7] else .err (.networkError "boom"))
        (.ok []) (.ok ()) [['a'], ['b']]).2 :=
  ⟨by decide, by decide, by decide, by decide⟩

/-- C4 (amended): in `generate_speech_chunked` the event trace is exactly a
prefix of per-chunk blocks — each chunk's request immediately followed by its
ledger record (success or failure flag, when the ledger write succeeds) before
the next chunk's request; the ffmpeg-concat loop, by contrast, emits only
provider requests, and a failed ffmpeg-concat run leaves no ledger record for
any chunk. -/
theorem c4_ledger_recording :
    (∀ (synth : Nat → Result Audio TTSError) (db : Nat → Result Unit String)
        (text : List Char), ∃ m,
      (generate_speech_chunked synth db text).2 =
        ((List.range' 0 m).map (chunkBlock synth db)).flatten) ∧
    (∀ (synth : Nat → Result Audio TTSError) (chunks : List (List Char)) (i : Nat),
      ∃ m ≤ chunks.length,
      (ffmpegConcatGo synth chunks i).2 = (List.range' i m).map Ev.request) ∧
    (∀ (synth : Nat → Result Audio TTSError) (concat : Result Audio String)
        (dbWrite : Result Unit String) (chunks : List (List Char)) (e : TTSError),
      (ffmpeg_concat_run synth concat dbWrite chunks).1 = .err e →
      ∃ m, (ffmpeg_concat_run synth concat dbWrite chunks).2 =
        (List.range' 0 m).map Ev.request) :=
  ⟨chunked_trace_blocks, ffmpegConcatGo_requests, ffmpeg_run_error_no_records⟩

/-- C4 witness: the failed two-chunk ffmpeg-concat run of the counterexample
instantiates the no-records property. -/
theorem c4_ledger_recording_witness :
    ∃ m, (ffmpeg_concat_run
        (fun i => if i = 0 then .ok [7] else .err (.networkError "boom"))
        (.ok []) (.ok ()) [['a'], ['b']]).2 = (List.range' 0 m).map Ev.request :=
  c4_ledger_recording.2.2 (fun i => if i = 0 then .ok [7] else .err (.networkError "boom"))
    (.ok []) (.ok ()) [['a'], ['b']] (.networkError "boom") (by decide)

/-! ## C9: the "no usage yet" default voice -/

/-- C9: with no records in the trailing window, `get_usage_stats` returns the
stale ElevenLabs default `"rachel"`, which the provider voice validator
`is_valid_voice` rejects — the deterministic default is not a member of the
valid (OpenAI) voice-id set, contradicting the spec and the repository's own
voice-validation tests. -/
theorem c9_default_voice_not_valid :
    (get_usage_stats []).most_used_voice = "rachel" ∧
    is_valid_voice "rachel" = false ∧
    VALID_VOICE_IDS.any (fun x => x == "rachel") = false := by
  refine ⟨rfl, by decide, by decide⟩

/-! ## C10: fixed-byte-offset truncations can panic on multi-byte input -/

/-- C10: the claim says the byte-offset truncations at 97 and 4000 never
panic; on valid UTF-8 inputs where the offset falls inside a multi-byte
character they do (modelled as `none`): 96 ASCII characters followed by `'é'`
put byte 97 inside `'é'` for the ledger truncation, and 3999 ASCII characters
followed by `'é'` put byte 4000 inside `'é'` for both fallback truncations. -/
theorem c10_byte_slices_panic :
    track_usage_stored_text (List.replicate 96 'a' ++ 'é' :: List.replicate 5 'b') = none ∧
    generate_speech_request false (List.replicate 3999 'a' ++ ['é']) = none ∧
    generate_speech_with_model_request false (List.replicate 3999 'a' ++ ['é']) = none := by
  have ha : ('a').utf8Size = 1 := by decide
  have hb : ('b').utf8Size = 1 := by decide
  have he : ('é').utf8Size = 2 := by decide
  have hstuck : byteTake 1 ('é' :: List.replicate 5 'b') = none := by
    rw [show byteTake 1 ('é' :: List.replicate 5 'b') =
      if (1 : Nat) = 0 then some [] else
      if ('é').utf8Size ≤ 1 then
        (byteTake (1 - ('é').utf8Size) (List.replicate 5 'b')).map (fun t => 'é' :: t)
      else none from rfl]
    rw [he]
    norm_num
  have hstuck2 : byteTake 1 ['é'] = none := by
    rw [show byteTake 1 ['é'] =
      if (1 : Nat) = 0 then some [] else
      if ('é').utf8Size ≤ 1 then (byteTake (1 - ('é').utf8Size) []).map (fun t => 'é' :: t)
      else none from rfl]
    rw [he]
    norm_num
  have h97 : byteTake 97 (List.replicate 96 'a' ++ 'é' :: List.replicate 5 'b') = none := by
    have h := byteTake_addLeft 'a' ha 96 1 ('é' :: List.replicate 5 'b')
    rw [show (97 : Nat) = 96 + 1 from rfl, h, hstuck, Option.map_none']
  have h4000 : byteTake 4000 (List.replicate 3999 'a' ++ ['é']) = none := by
    have h := byteTake_addLeft 'a' ha 3999 1 ['é']
    rw [show (4000 : Nat) = 3999 + 1 from rfl, h, hstuck2, Option.map_none']
  have hlen97 : utf8Len (List.replicate 96 'a' ++ 'é' :: List.replicate 5 'b') = 103 := by
    rw [utf8Len_append, utf8Len_cons, utf8Len_replicate, utf8Len_replicate, ha, hb, he]
  have hlen4000 : utf8Len (List.replicate 3999 'a' ++ ['é']) = 4001 := by
    have hone : utf8Len ['é'] = 2 := by decide
    rw [utf8Len_append, utf8Len_replicate, ha, hone]
  refine ⟨?_, ?_, ?_⟩
  · unfold track_usage_stored_text
    rw [hlen97, if_pos (by norm_num : 103 > 100), h97, Option.map_none']
  · unfold generate_speech_request
    rw [hlen4000, if_pos (by norm_num : 4001 > 4000),
      if_neg (by simp : ¬((false : Bool) = true)), h4000, Option.map_none']
  · unfold generate_speech_with_model_request
    rw [hlen4000, if_neg (by norm_num : ¬(4001 ≤ 4000)),
      if_neg (by simp : ¬((false : Bool) = true)), h4000, Option.map_none']

/-! ## C1, C2: the chunker -/

theorem sentencesGo_cons (fuel : Nat) (c : Char) (cs : List Char) :
    sentencesGo (fuel + 1) (c :: cs) =
      (c :: cs).take ((nextSentenceEnd (c :: cs)).getD (c :: cs).length) ::
        sentencesGo fuel
          ((c :: cs).drop ((nextSentenceEnd (c :: cs)).getD (c :: cs).length)) := rfl

theorem splitGo_cons (maxSize fuel : Nat) (c : Char) (cs : List Char)
    (current : List Char) (chunks : List (List Char)) :
    splitGo maxSize (fuel + 1) (c :: cs) current chunks =
      splitGo maxSize fuel
        ((c :: cs).drop ((nextSentenceEnd (c :: cs)).getD (c :: cs).length))
        (consumeSentence maxSize
          ((c :: cs).take ((nextSentenceEnd (c :: cs)).getD (c :: cs).length))
          current chunks).1
        (consumeSentence maxSize
          ((c :: cs).take ((nextSentenceEnd (c :: cs)).getD (c :: cs).length))
          current chunks).2 := rfl

theorem splitGo_nil (maxSize fuel : Nat) (current : List Char)
    (chunks : List (List Char)) :
    splitGo maxSize fuel [] current chunks =
      if current.isEmpty then chunks else chunks ++ [current] := by
  cases fuel <;> rfl

theorem consumeSentence_flatten (maxSize : Nat) (sentence current : List Char)
    (chunks : List (List Char)) (h : utf8Len sentence ≤ maxSize) :
    ((consumeSentence maxSize sentence current chunks).2).flatten ++
      (consumeSentence maxSize sentence current chunks).1 =
      chunks.flatten ++ current ++ sentence := by
  simp only [consumeSentence]
  rw [if_neg (by omega : ¬(utf8Len sentence > maxSize))]
  by_cases h1 : ¬current.isEmpty ∧ utf8Len current + utf8Len sentence > maxSize
  · rw [if_pos h1]
    simp
  · rw [if_neg h1]
    simp

theorem splitGo_flatten (maxSize : Nat) :
    ∀ (fuel : Nat) (remaining current : List Char) (chunks : List (List Char)),
      remaining.length ≤ fuel →
      (∀ s ∈ sentencesGo fuel remaining, utf8Len s ≤ maxSize) →
      (splitGo maxSize fuel remaining current chunks).flatten =
        chunks.flatten ++ current ++ remaining := by
  intro fuel
  induction fuel with
  | zero =>
    intro remaining current chunks hlen _
    have hr : remaining = [] := List.length_eq_zero.mp (Nat.le_zero.mp hlen)
    subst hr
    rw [splitGo_nil]
    by_cases hc : current.isEmpty
    · have hcn : current = [] := List.isEmpty_iff.mp hc
      subst hcn
      simp
    · simp [hc]
  | succ fuel ih =>
    intro remaining current chunks hlen hs
    cases remaining with
    | nil =>
      rw [splitGo_nil]
      by_cases hc : current.isEmpty
      · have hcn : current = [] := List.isEmpty_iff.mp hc
        subst hcn
        simp
      · simp [hc]
    | cons c cs =>
      rw [splitGo_cons]
      have hstop : 1 ≤ (nextSentenceEnd (c :: cs)).getD (c :: cs).length :=
        stop_pos (c :: cs) (by simp)
      have hrest :
          ((c :: cs).drop ((nextSentenceEnd (c :: cs)).getD (c :: cs).length)).length ≤
            fuel := by
        rw [List.length_drop]
        simp only [List.length_cons] at hlen hstop ⊢
        omega
      have hs' : ∀ s ∈ sentencesGo fuel
          ((c :: cs).drop ((nextSentenceEnd (c :: cs)).getD (c :: cs).length)),
          utf8Len s ≤ maxSize := by
        intro s hsm
        refine hs s ?_
        rw [sentencesGo_cons]
        exact List.mem_cons_of_mem _ hsm
      have hhead :
          utf8Len ((c :: cs).take ((nextSentenceEnd (c :: cs)).getD (c :: cs).length)) ≤
            maxSize := by
        refine hs _ ?_
        rw [sentencesGo_cons]
        exact List.mem_cons_self _ _
      rw [ih _ _ _ hrest hs', consumeSentence_flatten maxSize _ current chunks hhead]
      simp only [List.append_assoc]
      rw [List.take_append_drop]

/-- C1 counterexample: the claim says concatenating the chunks reproduces the
input for every text and positive limit; on input `"a  b"` with limit 3 the
word-packing fallback rejoins words with single spaces, losing the double
space. -/
theorem c1_counterexample :
    (split_text_semantically "a  b".data 3).flatten ≠ "a  b".data ∧
    (split_text_semantically "a  b".data 3).flatten = "a b".data ∧ 0 < 3 :=
  ⟨by decide, by decide, by decide⟩

/-- C1 (amended): concatenating the emitted chunks in order reproduces the
input exactly whenever no candidate sentence of the input exceeds
`max_chunk_size` (so the whitespace-normalizing word-packing fallback never
runs); the counterexample shows the general claim fails once a sentence
exceeds the limit. -/
theorem c1_concat_exact (text : List Char) (maxSize : Nat)
    (H : ∀ s ∈ sentencesOf text, utf8Len s ≤ maxSize) :
    (split_text_semantically text maxSize).flatten = text := by
  have h := splitGo_flatten maxSize text.length text [] [] (le_refl _) H
  simpa [split_text_semantically] using h

/-- C1 witness: a two-sentence input whose sentences fit the limit. -/
theorem c1_concat_exact_witness :
    (split_text_semantically "Hi. Yo.".data 4).flatten = "Hi. Yo.".data :=
  c1_concat_exact "Hi. Yo.".data 4 (by decide)

theorem finalChunks_ne (current : List Char) (chunks : List (List Char))
    (h : ∀ x ∈ chunks, x ≠ []) :
    ∀ x ∈ (if current.isEmpty then chunks else chunks ++ [current]), x ≠ [] := by
  by_cases hc : current.isEmpty
  · rw [if_pos hc]
    exact h
  · rw [if_neg hc]
    intro x hx
    rcases List.mem_append.mp hx with hh | hh
    · exact h x hh
    · have hx2 := List.mem_singleton.mp hh
      subst hx2
      intro hnil
      exact hc (by rw [hnil]; rfl)

theorem finalChunks_bound (maxSize : Nat) (current : List Char)
    (chunks : List (List Char)) (h1 : ∀ x ∈ chunks, utf8Len x ≤ maxSize)
    (h2 : utf8Len current ≤ maxSize) :
    ∀ x ∈ (if current.isEmpty then chunks else chunks ++ [current]),
      utf8Len x ≤ maxSize := by
  by_cases hc : current.isEmpty
  · rw [if_pos hc]
    exact h1
  · rw [if_neg hc]
    intro x hx
    rcases List.mem_append.mp hx with hh | hh
    · exact h1 x hh
    · have hx2 := List.mem_singleton.mp hh
      subst hx2
      exact h2

theorem packStep_flush (maxSize : Nat) (st : List (List Char) × List Char)
    (w : List Char) (hA : utf8Len st.2 + utf8Len w + 1 > maxSize)
    (hE : ¬st.2.isEmpty) : packStep maxSize st w = (st.1 ++ [st.2], w) := by
  simp [packStep, hA, hE]

theorem packStep_empty (maxSize : Nat) (st : List (List Char) × List Char)
    (w : List Char) (hE : st.2.isEmpty) : packStep maxSize st w = (st.1, w) := by
  by_cases hA : utf8Len st.2 + utf8Len w + 1 > maxSize <;> simp [packStep, hA, hE]

theorem packStep_append (maxSize : Nat) (st : List (List Char) × List Char)
    (w : List Char) (hA : ¬(utf8Len st.2 + utf8Len w + 1 > maxSize))
    (hE : ¬st.2.isEmpty) : packStep maxSize st w = (st.1, st.2 ++ ' ' :: w) := by
  simp [packStep, hA, hE]

theorem packStep_ne (maxSize : Nat) (st : List (List Char) × List Char)
    (w : List Char) (h : ∀ x ∈ st.1, x ≠ []) :
    ∀ x ∈ (packStep maxSize st w).1, x ≠ [] := by
  by_cases hE : st.2.isEmpty
  · rw [packStep_empty maxSize st w hE]
    exact h
  · by_cases hA : utf8Len st.2 + utf8Len w + 1 > maxSize
    · rw [packStep_flush maxSize st w hA hE]
      intro x hx
      rcases List.mem_append.mp hx with hh | hh
      · exact h x hh
      · have hx2 := List.mem_singleton.mp hh
        subst hx2
        intro hnil
        exact hE (by rw [hnil]; rfl)
    · rw [packStep_append maxSize st w hA hE]
      exact h

theorem packStep_bound (maxSize : Nat) (st : List (List Char) × List Char)
    (w : List Char) (hw : utf8Len w ≤ maxSize)
    (h1 : ∀ x ∈ st.1, utf8Len x ≤ maxSize) (h2 : utf8Len st.2 ≤ maxSize) :
    (∀ x ∈ (packStep maxSize st w).1, utf8Len x ≤ maxSize) ∧
      utf8Len (packStep maxSize st w).2 ≤ maxSize := by
  by_cases hE : st.2.isEmpty
  · rw [packStep_empty maxSize st w hE]
    exact ⟨h1, hw⟩
  · by_cases hA : utf8Len st.2 + utf8Len w + 1 > maxSize
    · rw [packStep_flush maxSize st w hA hE]
      refine ⟨?_, hw⟩
      intro x hx
      rcases List.mem_append.mp hx with hh | hh
      · exact h1 x hh
      · have hx2 := List.mem_singleton.mp hh
        subst hx2
        exact h2
    · rw [packStep_append maxSize st w hA hE]
      refine ⟨h1, ?_⟩
      rw [utf8Len_append, utf8Len_cons, (by decide : (' ').utf8Size = 1)]
      omega

theorem packWords_ne (maxSize : Nat) :
    ∀ (ws : List (List Char)) (st : List (List Char) × List Char),
      (∀ x ∈ st.1, x ≠ []) → ∀ x ∈ (packWords maxSize ws st).1, x ≠ [] := by
  intro ws
  induction ws with
  | nil => intro st h; exact h
  | cons w ws ih =>
    intro st h
    exact ih (packStep maxSize st w) (packStep_ne maxSize st w h)

theorem packWords_bound (maxSize : Nat) :
    ∀ (ws : List (List Char)) (st : List (List Char) × List Char),
      (∀ w ∈ ws, utf8Len w ≤ maxSize) →
      (∀ x ∈ st.1, utf8Len x ≤ maxSize) → utf8Len st.2 ≤ maxSize →
      (∀ x ∈ (packWords maxSize ws st).1, utf8Len x ≤ maxSize) ∧
        utf8Len (packWords maxSize ws st).2 ≤ maxSize := by
  intro ws
  induction ws with
  | nil => intro st _ h1 h2; exact ⟨h1, h2⟩
  | cons w ws ih =>
    intro st hw h1 h2
    have hstep := packStep_bound maxSize st w (hw w (by simp)) h1 h2
    exact ih (packStep maxSize st w) (fun x hx => hw x (by simp [hx])) hstep.1 hstep.2

theorem consumeSentence_ne (maxSize : Nat) (sentence current : List Char)
    (chunks : List (List Char)) (h : ∀ x ∈ chunks, x ≠ []) :
    ∀ x ∈ (consumeSentence maxSize sentence current chunks).2, x ≠ [] := by
  simp only [consumeSentence]
  by_cases hA : ¬current.isEmpty ∧ utf8Len current + utf8Len sentence > maxSize
  · rw [if_pos hA]
    have hpush : ∀ x ∈ chunks ++ [current], x ≠ [] := by
      intro x hx
      rcases List.mem_append.mp hx with hh | hh
      · exact h x hh
      · have hx2 := List.mem_singleton.mp hh
        subst hx2
        intro hnil
        exact hA.1 (by rw [hnil]; rfl)
    by_cases hB : utf8Len sentence > maxSize
    · rw [if_pos hB]
      exact packWords_ne maxSize (split_whitespace sentence) (chunks ++ [current], []) hpush
    · rw [if_neg hB]
      exact hpush
  · rw [if_neg hA]
    by_cases hB : utf8Len sentence > maxSize
    · rw [if_pos hB]
      exact packWords_ne maxSize (split_whitespace sentence) (chunks, current) h
    · rw [if_neg hB]
      exact h

theorem consumeSentence_bound (maxSize : Nat) (sentence current : List Char)
    (chunks : List (List Char))
    (hwords : ∀ w ∈ split_whitespace sentence, utf8Len w ≤ maxSize)
    (hchunks : ∀ x ∈ chunks, utf8Len x ≤ maxSize) (hcur : utf8Len current ≤ maxSize) :
    (∀ x ∈ (consumeSentence maxSize sentence current chunks).2, utf8Len x ≤ maxSize) ∧
      utf8Len (consumeSentence maxSize sentence current chunks).1 ≤ maxSize := by
  simp only [consumeSentence]
  by_cases hA : ¬current.isEmpty ∧ utf8Len current + utf8Len sentence > maxSize
  · rw [if_pos hA]
    have hpush : ∀ x ∈ chunks ++ [current], utf8Len x ≤ maxSize := by
      intro x hx
      rcases List.mem_append.mp hx with hh | hh
      · exact hchunks x hh
      · have hx2 := List.mem_singleton.mp hh
        subst hx2
        exact hcur
    by_cases hB : utf8Len sentence > maxSize
    · rw [if_pos hB]
      have hp := packWords_bound maxSize (split_whitespace sentence)
        (chunks ++ [current], []) hwords hpush (by simp [utf8Len])
      exact ⟨hp.1, hp.2⟩
    · rw [if_neg hB]
      refine ⟨hpush, ?_⟩
      show utf8Len ([] ++ sentence) ≤ maxSize
      rw [List.nil_append]
      omega
  · rw [if_neg hA]
    by_cases hB : utf8Len sentence > maxSize
    · rw [if_pos hB]
      have hp := packWords_bound maxSize (split_whitespace sentence)
        (chunks, current) hwords hchunks hcur
      exact ⟨hp.1, hp.2⟩
    · rw [if_neg hB]
      refine ⟨hchunks, ?_⟩
      show utf8Len (current ++ sentence) ≤ maxSize
      rw [utf8Len_append]
      by_cases hE : current.isEmpty
      · have hcn : current = [] := List.isEmpty_iff.mp hE
        subst hcn
        have h0 : utf8Len ([] : List Char) = 0 := rfl
        omega
      · have hA2 : ¬(utf8Len current + utf8Len sentence > maxSize) :=
          fun h2 => hA ⟨hE, h2⟩
        omega

theorem splitGo_ne (maxSize : Nat) :
    ∀ (fuel : Nat) (remaining current : List Char) (chunks : List (List Char)),
      (∀ x ∈ chunks, x ≠ []) →
      ∀ x ∈ splitGo maxSize fuel remaining current chunks, x ≠ [] := by
  intro fuel
  induction fuel with
  | zero =>
    intro remaining current chunks h
    cases remaining with
    | nil =>
      rw [splitGo_nil]
      exact finalChunks_ne current chunks h
    | cons c cs =>
      intro x hx
      exact h x hx
  | succ fuel ih =>
    intro remaining current chunks h
    cases remaining with
    | nil =>
      rw [splitGo_nil]
      exact finalChunks_ne current chunks h
    | cons c cs =>
      rw [splitGo_cons]
      exact ih _ _ _ (consumeSentence_ne maxSize _ current chunks h)

theorem splitGo_bound (maxSize : Nat) :
    ∀ (fuel : Nat) (remaining current : List Char) (chunks : List (List Char)),
      (∀ s ∈ sentencesGo fuel remaining, ∀ w ∈ split_whitespace s, utf8Len w ≤ maxSize) →
      (∀ x ∈ chunks, utf8Len x ≤ maxSize) → utf8Len current ≤ maxSize →
      ∀ x ∈ splitGo maxSize fuel remaining current chunks, utf8Len x ≤ maxSize := by
  intro fuel
  induction fuel with
  | zero =>
    intro remaining current chunks _ h1 h2
    cases remaining with
    | nil =>
      rw [splitGo_nil]
      exact finalChunks_bound maxSize current chunks h1 h2
    | cons c cs =>
      intro x hx
      exact h1 x hx
  | succ fuel ih =>
    intro remaining current chunks hw h1 h2
    cases remaining with
    | nil =>
      rw [splitGo_nil]
      exact finalChunks_bound maxSize current chunks h1 h2
    | cons c cs =>
      rw [splitGo_cons]
      have hhead : ∀ w ∈ split_whitespace
          ((c :: cs).take ((nextSentenceEnd (c :: cs)).getD (c :: cs).length)),
          utf8Len w ≤ maxSize := by
        refine hw _ ?_
        rw [sentencesGo_cons]
        exact List.mem_cons_self _ _
      have hc := consumeSentence_bound maxSize _ current chunks hhead h1 h2
      refine ih _ _ _ ?_ hc.1 hc.2
      intro s hsm
      refine hw s ?_
      rw [sentencesGo_cons]
      exact List.mem_cons_of_mem _ hsm

/-- C2 counterexample: the claim bounds every chunk by `max_chunk_size`; a
single word longer than the limit is emitted as an over-long chunk — on input
`"aaaa"` with limit 2 the sole chunk has length 4. -/
theorem c2_counterexample :
    "aaaa".data ∈ split_text_semantically "aaaa".data 2 ∧
    ¬utf8Len "aaaa".data ≤ 2 ∧ 0 < 2 :=
  ⟨by decide, by decide, by decide⟩

/-- C2 (amended): no emitted chunk is ever empty (for every input and limit),
and every chunk's byte length is at most `max_chunk_size` provided every
whitespace-delimited word of every candidate sentence fits the limit; the
counterexample shows the length bound fails once a single word exceeds it. -/
theorem c2_chunk_bounds (text : List Char) (maxSize : Nat)
    (Hw : ∀ s ∈ sentencesOf text, ∀ w ∈ split_whitespace s, utf8Len w ≤ maxSize) :
    (∀ c ∈ split_text_semantically text maxSize, c ≠ []) ∧
    (∀ c ∈ split_text_semantically text maxSize, utf8Len c ≤ maxSize) := by
  constructor
  · exact splitGo_ne maxSize text.length text [] [] (by simp)
  · exact splitGo_bound maxSize text.length text [] [] Hw (by simp) (by simp [utf8Len])

/-- C2 witness: a two-sentence input whose words all fit the limit. -/
theorem c2_chunk_bounds_witness :
    (∀ c ∈ split_text_semantically "Hi. Yo.".data 4, c ≠ []) ∧
    (∀ c ∈ split_text_semantically "Hi. Yo.".data 4, utf8Len c ≤ 4) :=
  c2_chunk_bounds "Hi. Yo.".data 4 (by decide)

/-! ## C8: ledger aggregation invariants -/

theorem length_filter_not_add (p : UsageRecord → Bool) (l : List UsageRecord) :
    (l.filter p).length + (l.filter (fun x => !p x)).length = l.length := by
  induction l with
  | nil => rfl
  | cons x xs ih =>
    by_cases h : p x <;> simp [List.filter_cons, h] <;> omega

theorem mostUsedVoiceAux_strict (records : List UsageRecord) (v : String) :
    ∀ (vs : List String) (best : Option String),
      (∀ b, best = some b → (b = v ∨ countVoice records b < countVoice records v)) →
      (v ∈ vs ∨ best = some v) →
      (∀ w ∈ vs, w = v ∨ countVoice records w < countVoice records v) →
      mostUsedVoiceAux records vs best = some v := by
  intro vs
  induction vs with
  | nil =>
    intro best hb hv _
    rcases hv with h | h
    · exact absurd h (List.not_mem_nil v)
    · simpa [mostUsedVoiceAux] using h
  | cons w ws ih =>
    intro best hb hv hw
    cases best with
    | none =>
      show mostUsedVoiceAux records ws (some w) = some v
      apply ih
      · intro b hbeq
        simp only [Option.some.injEq] at hbeq
        subst hbeq
        exact hw _ (by simp)
      · rcases hv with hmem | hbest
        · rcases List.mem_cons.mp hmem with heq | hmem'
          · subst heq
            exact Or.inr rfl
          · exact Or.inl hmem'
        · exact Option.noConfusion hbest
      · intro x hx
        exact hw x (by simp [hx])
    | some b0 =>
      by_cases hcmp : countVoice records b0 < countVoice records w
      · show mostUsedVoiceAux records ws
          (if countVoice records b0 < countVoice records w then some w else some b0) =
            some v
        rw [if_pos hcmp]
        apply ih
        · intro b hbeq
          simp only [Option.some.injEq] at hbeq
          subst hbeq
          exact hw _ (by simp)
        · rcases hv with hmem | hbest
          · rcases List.mem_cons.mp hmem with heq | hmem'
            · exact Or.inr (by rw [heq])
            · exact Or.inl hmem'
          · simp only [Option.some.injEq] at hbest
            subst hbest
            rcases hw w (by simp) with hwv | hlt
            · exact Or.inr (by rw [hwv])
            · exact absurd hcmp (by omega)
        · intro x hx
          exact hw x (by simp [hx])
      · show mostUsedVoiceAux records ws
          (if countVoice records b0 < countVoice records w then some w else some b0) =
            some v
        rw [if_neg hcmp]
        apply ih
        · intro b hbeq
          simp only [Option.some.injEq] at hbeq
          subst hbeq
          exact hb _ rfl
        · rcases hv with hmem | hbest
          · rcases List.mem_cons.mp hmem with heq | hmem'
            · rcases hb b0 rfl with hbv | hlt
              · exact Or.inr (by rw [hbv])
              · rw [heq] at hlt
                exact absurd hlt hcmp
            · exact Or.inl hmem'
          · exact Or.inr hbest
        · intro x hx
          exact hw x (by simp [hx])

/-- C8: `get_usage_stats` always satisfies
`successful_requests + failed_requests = total_requests`, and whenever one
voice occurs strictly more often than every other voice among the in-window
records, `most_used_voice` is that voice. -/
theorem c8_stats_invariants (records : List UsageRecord) :
    (get_usage_stats records).successful_requests +
        (get_usage_stats records).failed_requests =
      (get_usage_stats records).total_requests ∧
    ∀ v, v ∈ records.map (fun r => r.voice_id) →
      (∀ w ∈ records.map (fun r => r.voice_id), w ≠ v →
        countVoice records w < countVoice records v) →
      (get_usage_stats records).most_used_voice = v := by
  constructor
  · exact length_filter_not_add (fun r => r.success) records
  · intro v hv hw
    have hm : mostUsedVoiceAux records (records.map (fun r => r.voice_id)) none =
        some v := by
      apply mostUsedVoiceAux_strict
      · intro b hb
        exact absurd hb (by simp)
      · exact Or.inl hv
      · intro w hwm
        by_cases hwe : w = v
        · exact Or.inl hwe
        · exact Or.inr (hw w hwm hwe)
    show most_used_voice records = v
    rw [most_used_voice, hm]
    rfl

/-- C8 witness: the spec's scenario — voice `"A"` three times and `"B"` twice
within the window — yields `most_used_voice = "A"`, and the totals add up. -/
theorem c8_stats_invariants_witness :
    (get_usage_stats [⟨"A", true, 10⟩, ⟨"A", true, 11⟩, ⟨"A", false, 12⟩,
        ⟨"B", true, 13⟩, ⟨"B", true, 14⟩]).most_used_voice = "A" ∧
    (get_usage_stats [⟨"A", true, 10⟩, ⟨"A", true, 11⟩, ⟨"A", false, 12⟩,
        ⟨"B", true, 13⟩, ⟨"B", true, 14⟩]).successful_requests +
      (get_usage_stats [⟨"A", true, 10⟩, ⟨"A", true, 11⟩, ⟨"A", false, 12⟩,
        ⟨"B", true, 13⟩, ⟨"B", true, 14⟩]).failed_requests =
      (get_usage_stats [⟨"A", true, 10⟩, ⟨"A", true, 11⟩, ⟨"A", false, 12⟩,
        ⟨"B", true, 13⟩, ⟨"B", true, 14⟩]).total_requests :=
  ⟨(c8_stats_invariants _).2 "A" (by decide) (by decide),
   (c8_stats_invariants _).1⟩

end TTSPlayer
